import Mathlib

/-!
Shallow embedding of the causal time-series-graph construction code of
HydroComplexity/CausalHistory (`info/core/construct_network.py`) and of the
dimensionality check of the information-statistics class (`info/core/info.py`),
together with theorems settling the specification claims about them.

Modelling conventions:
* networkx `DiGraph` objects are modelled by `Graph`: a finite node set of
  integer node ids, a finite edge set, and the two graph attributes `ndim`
  and `tau` the source stores on the graph.
* Python runtime exceptions are modelled with `Except ExecErr`; the source
  file contains several expressions that raise (`list | list`,
  `list - set`, a stray positional argument to `DiGraph.predecessors`,
  the unbound names `i` / `getParents`), and these are modelled faithfully
  as errors at exactly the program points where CPython raises them.
* The independence oracle (`independence` / `conditionalIndependence`) is an
  external collaborator of the core (it is called but neither defined nor
  imported by `construct_network.py`); per the spec it is passed in as an
  abstract `Oracle`, with the observation-data argument folded into it.
* The numbers involved (node ids, lags, dimensions) are Python ints, modelled
  as `Nat` where the source guarantees nonnegativity (node ids, `tau`,
  `ndim`) and as `Int` for the user-supplied parameters
  `taumin`/`taumax`/`dtau`. The source is Python 2 code (2017), so `/` on
  ints is floor division.
-/

deriving instance DecidableEq for Except

namespace CausalHistory

/-- Runtime outcomes of the modelled Python code: `typeError` for TypeError
(`list | list`, `list - set`, stray positional argument), `nameError` for
NameError (unbound `i`, undefined `getParents`), `networkxError` for the
exceptions networkx raises (`remove_edge` on a missing edge, path query on a
missing node), and `fuelOut`, a modelling artifact marking exhaustion of the
structural-recursion fuel of the main loop (never reached in the concrete
evaluations below). -/
inductive ExecErr where
  | typeError
  | nameError
  | networkxError
  | fuelOut
deriving DecidableEq, Repr

/-- A node in semantic `(variableIndex, timeLag)` form, as the source's
`nodedict` tuples. -/
abbrev NodeDict := ℕ × ℕ

/-- The time series graph: networkx `DiGraph(ndim=ndim, tau=tau)` with integer
node ids. -/
structure Graph where
  ndim : ℕ
  tau : ℕ
  nodes : Finset ℕ
  edges : Finset (ℕ × ℕ)
deriving DecidableEq

/-- The shapes the source passes as the `conditionset` argument of
`conditionalIndependence`: a set of `(index, lag)` pairs or (at line 187) a
bare `(index, lag)` tuple. -/
inductive CondArg where
  | set : Finset NodeDict → CondArg
  | single : NodeDict → CondArg

/-- The independence oracle, an external collaborator of
`construct_network.py` (the module calls `independence` and
`conditionalIndependence` without defining or importing them).  The
observation-data argument is folded into the oracle, so quantifying over
`Oracle` quantifies over the observation matrix as well. -/
structure Oracle where
  independence : NodeDict → NodeDict → Bool
  conditionalIndependence : NodeDict → NodeDict → CondArg → Bool

/-- Modelled from the spec: `get_node_number` is imported from
`info/utils/causal_network.py`, which is not among the source files; spec
section 4.1 gives the encoding `id = timeLag * ndim + variableIndex`.  The
third source argument is `0` at every call site in `construct_network.py` and
is dropped here. -/
def get_node_number (nodedict : NodeDict) (ndim : ℕ) : ℕ :=
  nodedict.2 * ndim + nodedict.1

/-- Modelled from the spec: `intersect` is imported from
`info/utils/causal_network.py`, which is not among the source files; spec
section 4.4 step 2 uses it as `candidateSet = pathNodes ∩ currentParentsOf T`,
the members of the node list lying in the node set. -/
def intersect (l : List ℕ) (s : Finset ℕ) : List ℕ :=
  l.filter (fun n => n ∈ s)

/-- networkx `g.predecessors(n)`: sources of the edges into `n`. -/
def predecessors (g : Graph) (n : ℕ) : Finset ℕ :=
  (g.edges.filter (fun e => e.2 = n)).image Prod.fst

/-- networkx `g.add_node(n)`. -/
def addNode (g : Graph) (n : ℕ) : Graph :=
  { g with nodes := insert n g.nodes }

/-- networkx `g.add_edge(a, b)`: inserts the edge and both endpoints. -/
def addEdge (g : Graph) (a b : ℕ) : Graph :=
  { g with nodes := insert a (insert b g.nodes), edges := insert (a, b) g.edges }

/-- networkx `g.remove_edge(a, b)`: removes the edge, raising `NetworkXError`
when the edge is absent (nodes are kept). -/
def removeEdge (g : Graph) (a b : ℕ) : Except ExecErr Graph :=
  if (a, b) ∈ g.edges then .ok { g with edges := g.edges.erase (a, b) }
  else .error .networkxError

/-- `g.graph['tau'] = t` (source line 57). -/
def setTau (g : Graph) (t : ℕ) : Graph :=
  { g with tau := t }

/-- The members of a finite set of node ids in increasing order (the
canonical enumeration used wherever the source iterates over a Python set;
every such iteration below is order-independent). -/
def sortedList (s : Finset ℕ) : List ℕ :=
  (List.range (s.sup id + 1)).filter (fun n => n ∈ s)

/-- The outgoing neighbours of `n`, as a deterministic (sorted) list. -/
def successors (g : Graph) (n : ℕ) : List ℕ :=
  sortedList ((g.edges.filter (fun e => e.1 = n)).image Prod.snd)

/-- Depth-first enumeration of the simple paths from `cur` to `t` avoiding
`visited`, the recursion behind networkx `all_simple_paths`.  `fuel` bounds
the recursion depth; the caller passes `g.nodes.card + 1`, enough for every
simple path through the graph. -/
def simplePathsFrom (g : Graph) (t : ℕ) : ℕ → ℕ → List ℕ → List (List ℕ)
  | 0, _, _ => []
  | fuel + 1, cur, visited =>
    if cur = t then [[cur]]
    else
      ((successors g cur).filter (fun v => v ∉ cur :: visited)).flatMap
        (fun nxt => (simplePathsFrom g t fuel nxt (cur :: visited)).map (cur :: ·))

/-- `get_causal_paths` (source lines 270-284): all simple paths from `snode`
to `tnode`, flattened into one node list.  networkx raises when either
endpoint is missing from the graph. -/
def get_causal_paths (g : Graph) (snode tnode : ℕ) : Except ExecErr (List ℕ) :=
  if snode ∈ g.nodes ∧ tnode ∈ g.nodes then
    .ok (simplePathsFrom g tnode (g.nodes.card + 1) snode []).flatten
  else .error .networkxError

/-- `get_nodes_dict` (source lines 287-300): decode node ids into
`(index, lag)` form by `(node % ndim, node / ndim)` (Python 2 floor
division). -/
def get_nodes_dict (g : Graph) (nodes_number : List ℕ) : List NodeDict :=
  nodes_number.map (fun node => (node % g.ndim, node / g.ndim))

/-- `temporallyMoveNodes` (source lines 248-267): shift each node id by
`lag * ndim`. -/
def temporallyMoveNodes (g : Graph) (nodes : List ℕ) (lag : ℕ) : List ℕ :=
  nodes.map (fun node => node + lag * g.ndim)

/-- `getPreliminaryParents` (source lines 76-112), as executed.  Line 94 adds
the node for `(j, tau+1)` to the graph; line 97 initialises `ppaset = []` (a
Python list); line 103 rebinds `ppaset1` to the list returned by
`temporallyMoveNodes`; line 106 then evaluates `ppaset | ppaset1`, and `|` is
not defined on Python lists, so the call unconditionally raises `TypeError`.
The mutated graph is returned alongside the outcome, as the mutation to the
shared graph object survives the exception. -/
def getPreliminaryParents (g : Graph) (j : ℕ) : Graph × Except ExecErr (Finset ℕ) :=
  let ndim := g.ndim
  let tau := g.tau
  let node_number_n := get_node_number (j, tau + 1) ndim
  let g' := addNode g node_number_n
  (g', .error .typeError)

/-- `getPreliminaryParents` with its two type slips repaired (the `|` unions
performed on sets, as the surrounding comments describe): the parents of
`(j, tau)` shifted one lag plus the `ndim` anchor ids — the documented intent
of spec section 4.4 steps 1-3. -/
def getPreliminaryParentsFixed (g : Graph) (j : ℕ) : Graph × Finset ℕ :=
  let ndim := g.ndim
  let tau := g.tau
  let node_number_n := get_node_number (j, tau + 1) ndim
  let node_number_e := get_node_number (j, tau) ndim
  let g' := addNode g node_number_n
  let ppaset1 := (temporallyMoveNodes g (sortedList (predecessors g node_number_e)) 1).toFinset
  (g', ppaset1 ∪ Finset.range ndim)

/-- `updateGraphByParents` (source lines 115-136): add an edge from every
member of `paset` into the node of interest (iterated in sorted order; the
result does not depend on the iteration order). -/
def updateGraphByParents (g : Graph) (paset : Finset ℕ) (nodedict : NodeDict) : Graph :=
  let node_number := get_node_number nodedict g.ndim
  (sortedList paset).foldl (fun h pa => addEdge h pa node_number) g

/-- Step 1 of the per-anchor pruning pass (source lines 164-167): when the
oracle reports `Xi_0` independent of the target, discard the anchor from
`ppaset` and remove its edge into the target (`remove_edge` raises when the
edge is absent). -/
def excludeStep1 (orc : Oracle) (nodedict : NodeDict) (i : ℕ)
    (st : Graph × Finset ℕ) : Except ExecErr (Graph × Finset ℕ) :=
  let g := st.1
  let ppaset := st.2
  let node_number := get_node_number nodedict g.ndim
  let nodedict_p : NodeDict := (i, 0)
  let node_number_p := get_node_number nodedict_p g.ndim
  if orc.independence nodedict_p nodedict then
    match removeEdge g node_number_p node_number with
    | .error e => .error e
    | .ok g' => .ok (g', ppaset.erase node_number_p)
  else .ok (g, ppaset)

/-- Step 4 of the per-anchor pruning pass (source lines 183-195): for each
remaining candidate parent `pa`, remove its edge when it is conditionally
independent of the target given the anchor.  When `deep` is set, the `elif`
branch evaluates `paseti_dict - {nodedict_p}` — a Python list minus a set —
and raises `TypeError`.  The source iterates over a Python set (order
unspecified); the removals and the raise condition are order-independent, and
the iteration is modelled in sorted order. -/
def step4Loop (orc : Oracle) (nodedict nodedict_p : NodeDict) (deep : Bool)
    (node_number : ℕ) :
    List ℕ → Graph × Finset ℕ × Finset ℕ → Except ExecErr (Graph × Finset ℕ × Finset ℕ)
  | [], st => .ok st
  | pa :: rest, (g, ppaset, paseti) =>
    let pa_dict : NodeDict := (pa % g.ndim, pa / g.ndim)
    if orc.conditionalIndependence pa_dict nodedict (.single nodedict_p) then
      match removeEdge g pa node_number with
      | .error e => .error e
      | .ok g' =>
        step4Loop orc nodedict nodedict_p deep node_number rest
          (g', ppaset.erase pa, paseti.erase pa)
    else if deep then .error .typeError
    else step4Loop orc nodedict nodedict_p deep node_number rest (g, ppaset, paseti)

/-- Steps 2-4 of the per-anchor pruning pass (source lines 169-195).  Step 2
computes the nodes on simple paths from the anchor to the target and
intersects with `ppaset`.  Step 3 (lines 175-180): entering the branch
evaluates `conditionset=paseti_dict-{nodedict_p}`, a Python list minus a set,
which raises `TypeError` before the oracle is consulted.  Step 4 then runs
over the candidates other than the anchor. -/
def excludeAnchorRest (orc : Oracle) (nodedict : NodeDict) (deep : Bool) (i : ℕ)
    (st : Graph × Finset ℕ) : Except ExecErr (Graph × Finset ℕ) :=
  let g := st.1
  let ppaset := st.2
  let node_number := get_node_number nodedict g.ndim
  let nodedict_p : NodeDict := (i, 0)
  let node_number_p := get_node_number nodedict_p g.ndim
  match get_causal_paths g node_number_p node_number with
  | .error e => .error e
  | .ok nodes_in_paths =>
    let paseti := (intersect nodes_in_paths ppaset).toFinset
    if node_number_p ∈ paseti ∧ 1 < paseti.card then .error .typeError
    else if 1 < ppaset.card then
      match step4Loop orc nodedict nodedict_p deep node_number
          (sortedList (paseti.erase node_number_p)) (g, ppaset, paseti) with
      | .error e => .error e
      | .ok (g', ppaset', _) => .ok (g', ppaset')
    else .ok (g, ppaset)

/-- One iteration of the `for i in range(ndim)` loop of
`excludeSpuriousParents` (source lines 159-195). -/
def excludeAnchorStep (orc : Oracle) (nodedict : NodeDict) (deep : Bool)
    (st : Graph × Finset ℕ) (i : ℕ) : Except ExecErr (Graph × Finset ℕ) :=
  match excludeStep1 orc nodedict i st with
  | .error e => .error e
  | .ok st1 => excludeAnchorRest orc nodedict deep i st1

/-- The anchor loop of `excludeSpuriousParents`, in increasing anchor order as
`range(ndim)` iterates. -/
def anchorLoop (orc : Oracle) (nodedict : NodeDict) (deep : Bool) :
    List ℕ → Graph × Finset ℕ → Except ExecErr (Graph × Finset ℕ)
  | [], st => .ok st
  | i :: rest, st =>
    match excludeAnchorStep orc nodedict deep st i with
    | .error e => .error e
    | .ok st' => anchorLoop orc nodedict deep rest st'

/-- `excludeSpuriousParents` (source lines 139-198): initialise `ppaset` to
the current predecessors of the node of interest and run the per-anchor
pruning pass for every anchor variable. -/
def excludeSpuriousParents (orc : Oracle) (g : Graph) (nodedict : NodeDict)
    (deep : Bool) : Except ExecErr Graph :=
  let node_number := get_node_number nodedict g.ndim
  let ppaset := predecessors g node_number
  match anchorLoop orc nodedict deep (List.range g.ndim) (g, ppaset) with
  | .error e => .error e
  | .ok (g', _) => .ok g'

/-- `isConvergence` (source lines 201-245).  The final branch runs
`for i in range(dtau-1): for j in range(ndim):` and its body calls
`g.predecessors(g, node_number_1)` with a stray extra positional argument,
which raises `TypeError`; the body executes exactly when `dtau ≥ 2` and
`ndim ≥ 1`, and otherwise the loop completes and the function returns the
initial value `convergence = True`. -/
def isConvergence (g : Graph) (taumin taumax dtau : ℤ) : Except ExecErr Bool :=
  let tau : ℤ := (g.tau : ℤ)
  if tau < taumin then .ok false
  else if taumax < tau then .ok true
  else if tau ≤ dtau then .ok false
  else if 1 ≤ dtau - 1 ∧ 1 ≤ g.ndim then .error .typeError
  else .ok true

/-- The graph initialisation of `findCausalRelationships` (source lines
33-42): `DiGraph(ndim=ndim, tau=0)` with the `ndim` anchor nodes
`get_node_number((j, 0), ndim, 0) = j` added. -/
def initGraph (ndim : ℕ) : Graph :=
  { ndim := ndim, tau := 0, nodes := Finset.range ndim, edges := ∅ }

/-- The `for j in range(ndim)` proposal loop of the main loop body (source
lines 51-54): `getPreliminaryParents` then `updateGraphByParents` for each
variable (the latter is unreachable, as the former always raises). -/
def proposeAll : List ℕ → Graph → Except ExecErr Graph
  | [], g => .ok g
  | j :: rest, g =>
    match getPreliminaryParents g j with
    | (_, .error e) => .error e
    | (g', .ok ppaset) => proposeAll rest (updateGraphByParents g' ppaset (j, g'.tau + 1))

/-- The `for j in range(ndim)` pruning loop of the main loop body (source
lines 60-62). -/
def pruneAll (orc : Oracle) (deep : Bool) (tau : ℕ) :
    List ℕ → Graph → Except ExecErr Graph
  | [], g => .ok g
  | j :: rest, g =>
    match excludeSpuriousParents orc g (j, tau) deep with
    | .error e => .error e
    | .ok g' => pruneAll orc deep tau rest g'

/-- The final assembly of `findCausalRelationships` (source lines 64-70):
`for j in range(ndim): causalDict[i] = getParents(g, (j, tau))`.  The name
`getParents` is neither defined nor imported by the module and the loop
variable is `j` while the key is the unbound name `i`, so any nonempty
iteration raises `NameError`; with `ndim = 0` the empty dict is returned. -/
def assembleCausalDict (g : Graph) : Except ExecErr (List (ℕ × List NodeDict)) :=
  if g.ndim = 0 then .ok [] else .error .nameError

/-- The `while not isConvergence(...)`` main loop (source lines 45-62), with a
fuel parameter for structural recursion (`fuelOut` is never reached in the
concrete evaluations below). -/
def expandLoop (orc : Oracle) (deep : Bool) (taumin taumax dtau : ℤ) :
    ℕ → Graph → Except ExecErr Graph
  | 0, _ => .error .fuelOut
  | fuel + 1, g =>
    match isConvergence g taumin taumax dtau with
    | .error e => .error e
    | .ok true => .ok g
    | .ok false =>
      let tau := g.tau + 1
      match proposeAll (List.range g.ndim) g with
      | .error e => .error e
      | .ok g1 =>
        let g2 := setTau g1 tau
        match pruneAll orc deep tau (List.range g2.ndim) g2 with
        | .error e => .error e
        | .ok g3 => expandLoop orc deep taumin taumax dtau fuel g3

/-- `findCausalRelationships` (source lines 18-70): initialise the anchor
graph, run the expansion/pruning loop until `isConvergence`, then assemble
the causal dictionary.  The observation data enters only through the oracle;
`ndim` is `data.shape[1]`. -/
def findCausalRelationships (orc : Oracle) (ndim : ℕ)
    (dtau taumax taumin : ℤ) (deep : Bool) :
    Except ExecErr (List (ℕ × List NodeDict)) :=
  let fuel := taumin.toNat + taumax.toNat + dtau.toNat + 2
  match expandLoop orc deep taumin taumax dtau fuel (initGraph ndim) with
  | .error e => .error e
  | .ok g => assembleCausalDict g

/-- `l` is a directed simple path from `s` to `t` in `g`: nonempty, starts at
`s`, ends at `t`, follows edges, and repeats no node. -/
def IsSimplePath (g : Graph) (s t : ℕ) (l : List ℕ) : Prop :=
  l ≠ [] ∧ l.head? = some s ∧ l.getLast? = some t ∧
    l.Chain' (fun a b => (a, b) ∈ g.edges) ∧ l.Nodup

/-- There is a directed simple path from `s` to `t` in `g`. -/
def HasSimplePath (g : Graph) (s t : ℕ) : Prop :=
  ∃ l, IsSimplePath g s t l

/-- One atomic mutation of the shared graph as performed by the expansion and
pruning phases of the main loop: the `add_node` of `getPreliminaryParents`
(line 94), an `updateGraphByParents` edge insertion targeting a node at a
positive lag (lines 51-54 always target lag `tau ≥ 1`), the
`g.graph['tau']` update (line 57), or a completed `excludeSpuriousParents`
pass against a node at a positive lag (lines 60-62). -/
inductive ExpandStep : Graph → Graph → Prop
  | expandNode (g : Graph) (j : ℕ) :
      ExpandStep g (addNode g (get_node_number (j, g.tau + 1) g.ndim))
  | update (g : Graph) (paset : Finset ℕ) (j tau' : ℕ) (h : 1 ≤ tau') :
      ExpandStep g (updateGraphByParents g paset (j, tau'))
  | setLag (g : Graph) (t : ℕ) : ExpandStep g (setTau g t)
  | prune (g g' : Graph) (orc : Oracle) (nodedict : NodeDict) (deep : Bool)
      (h : 1 ≤ nodedict.2)
      (hx : excludeSpuriousParents orc g nodedict deep = .ok g') :
      ExpandStep g g'

/-- Graph states reachable from the freshly initialised anchor graph by any
number of expansion and pruning steps. -/
def Reachable (ndim : ℕ) (g : Graph) : Prop :=
  Relation.ReflTransGen ExpandStep (initGraph ndim) g

/-- The dimensionality check of `info.__init__` (`info/core/info.py` lines
23-52): `ndim = np.size(pdfs.shape)` is the number of array dimensions, the
constructor raises when `ndim > 3 or ndim < 1`, and otherwise stores
`self.ndim = ndim`.  The argument is the shape tuple of the `pdfs` array. -/
def info_init_ndim (pdfs_shape : List ℕ) : Except String ℕ :=
  let ndim := pdfs_shape.length
  if 3 < ndim ∨ ndim < 1 then
    .error "The number of variables should be less than or equal to 3."
  else .ok ndim

/-- An oracle reporting dependence for every query (all verdicts `false`);
used to instantiate quantified statements at a concrete oracle. -/
def trivOracle : Oracle :=
  { independence := fun _ _ => false, conditionalIndependence := fun _ _ _ => false }

/-- A two-node graph (`ndim = 1`) with the single edge from the anchor into
the lag-1 node, used to witness C7. -/
def g7 : Graph :=
  { ndim := 1, tau := 1, nodes := {0, 1}, edges := {(0, 1)} }

/-- A graph with `ndim = 2` whose lag-1 target node `2` has the single parent
`1`, so that anchor `0` has no path to it; used to witness C9. -/
def g9 : Graph :=
  { ndim := 2, tau := 1, nodes := {0, 1, 2, 3}, edges := {(1, 2)} }

/-- Membership in the canonical enumeration agrees with set membership. -/
lemma mem_sortedList {s : Finset ℕ} {n : ℕ} : n ∈ sortedList s ↔ n ∈ s := by
  simp only [sortedList, List.mem_filter, List.mem_range, decide_eq_true_eq]
  constructor
  · exact fun h => h.2
  · exact fun h => ⟨Nat.lt_succ_of_le (Finset.le_sup (f := id) h), h⟩

/-- `removeEdge` keeps `ndim`, `tau` and the node set, and shrinks the edge
set. -/
lemma removeEdge_ok {g g' : Graph} {a b : ℕ} (h : removeEdge g a b = .ok g') :
    g'.ndim = g.ndim ∧ g'.tau = g.tau ∧ g'.nodes = g.nodes ∧ g'.edges ⊆ g.edges := by
  unfold removeEdge at h
  split at h
  · injection h with h
    subst h
    exact ⟨rfl, rfl, rfl, Finset.erase_subset _ _⟩
  · exact Except.noConfusion h

/-- The step-4 loop of the pruning pass only removes edges. -/
lemma step4Loop_ok (orc : Oracle) (nd ndp : NodeDict) (deep : Bool) (n : ℕ)
    (l : List ℕ) :
    ∀ st st' : Graph × Finset ℕ × Finset ℕ,
      step4Loop orc nd ndp deep n l st = .ok st' →
      st'.1.ndim = st.1.ndim ∧ st'.1.tau = st.1.tau ∧ st'.1.nodes = st.1.nodes ∧
        st'.1.edges ⊆ st.1.edges := by
  induction l with
  | nil =>
    intro st st' h
    injection h with h
    subst h
    exact ⟨rfl, rfl, rfl, Finset.Subset.refl _⟩
  | cons pa rest ih =>
    rintro ⟨g, ppaset, paseti⟩ st' h
    rw [step4Loop] at h
    split at h
    · split at h
      · exact Except.noConfusion h
      · rename_i g2 hre
        obtain ⟨h1, h2, h3, h4⟩ := ih _ _ h
        obtain ⟨h5, h6, h7, h8⟩ := removeEdge_ok hre
        exact ⟨h1.trans h5, h2.trans h6, h3.trans h7, h4.trans h8⟩
    · split at h
      · exact Except.noConfusion h
      · exact ih _ _ h

/-- Step 1 of the pruning pass only removes edges. -/
lemma excludeStep1_ok {orc : Oracle} {nd : NodeDict} {i : ℕ}
    {st st1 : Graph × Finset ℕ} (h : excludeStep1 orc nd i st = .ok st1) :
    st1.1.ndim = st.1.ndim ∧ st1.1.tau = st.1.tau ∧ st1.1.nodes = st.1.nodes ∧
      st1.1.edges ⊆ st.1.edges := by
  unfold excludeStep1 at h
  dsimp only at h
  split at h
  · split at h
    · exact Except.noConfusion h
    · rename_i g2 hre
      injection h with h
      subst h
      obtain ⟨h5, h6, h7, h8⟩ := removeEdge_ok hre
      exact ⟨h5, h6, h7, h8⟩
  · injection h with h
    subst h
    exact ⟨rfl, rfl, rfl, Finset.Subset.refl _⟩

/-- Steps 2-4 of the pruning pass only remove edges. -/
lemma excludeAnchorRest_ok {orc : Oracle} {nd : NodeDict} {deep : Bool} {i : ℕ}
    {st st' : Graph × Finset ℕ} (h : excludeAnchorRest orc nd deep i st = .ok st') :
    st'.1.ndim = st.1.ndim ∧ st'.1.tau = st.1.tau ∧ st'.1.nodes = st.1.nodes ∧
      st'.1.edges ⊆ st.1.edges := by
  unfold excludeAnchorRest at h
  dsimp only at h
  split at h
  · exact Except.noConfusion h
  · split at h
    · exact Except.noConfusion h
    · split at h
      · split at h
        · exact Except.noConfusion h
        · rename_i res g2 pp2 ps2 hloop
          injection h with h
          subst h
          exact step4Loop_ok _ _ _ _ _ _ _ _ hloop
      · injection h with h
        subst h
        exact ⟨rfl, rfl, rfl, Finset.Subset.refl _⟩

/-- One anchor iteration of the pruning pass only removes edges. -/
lemma excludeAnchorStep_ok {orc : Oracle} {nd : NodeDict} {deep : Bool} {i : ℕ}
    {st st' : Graph × Finset ℕ} (h : excludeAnchorStep orc nd deep st i = .ok st') :
    st'.1.ndim = st.1.ndim ∧ st'.1.tau = st.1.tau ∧ st'.1.nodes = st.1.nodes ∧
      st'.1.edges ⊆ st.1.edges := by
  unfold excludeAnchorStep at h
  split at h
  · exact Except.noConfusion h
  · rename_i st1 h1
    obtain ⟨h1a, h1b, h1c, h1d⟩ := excludeStep1_ok h1
    obtain ⟨h2a, h2b, h2c, h2d⟩ := excludeAnchorRest_ok h
    exact ⟨h2a.trans h1a, h2b.trans h1b, h2c.trans h1c, h2d.trans h1d⟩

/-- The anchor loop of the pruning pass only removes edges. -/
lemma anchorLoop_ok {orc : Oracle} {nd : NodeDict} {deep : Bool} (l : List ℕ) :
    ∀ st st' : Graph × Finset ℕ,
      anchorLoop orc nd deep l st = .ok st' →
      st'.1.ndim = st.1.ndim ∧ st'.1.tau = st.1.tau ∧ st'.1.nodes = st.1.nodes ∧
        st'.1.edges ⊆ st.1.edges := by
  induction l with
  | nil =>
    intro st st' h
    injection h with h
    subst h
    exact ⟨rfl, rfl, rfl, Finset.Subset.refl _⟩
  | cons i rest ih =>
    intro st st' h
    rw [anchorLoop] at h
    split at h
    · exact Except.noConfusion h
    · rename_i st1 h1
      obtain ⟨h1a, h1b, h1c, h1d⟩ := excludeAnchorStep_ok h1
      obtain ⟨h2a, h2b, h2c, h2d⟩ := ih _ _ h
      exact ⟨h2a.trans h1a, h2b.trans h1b, h2c.trans h1c, h2d.trans h1d⟩

/-- A completed `excludeSpuriousParents` pass keeps `ndim`, `tau` and the
node set, and only removes edges. -/
lemma excludeSpuriousParents_ok {orc : Oracle} {g : Graph} {nd : NodeDict}
    {deep : Bool} {g' : Graph} (h : excludeSpuriousParents orc g nd deep = .ok g') :
    g'.ndim = g.ndim ∧ g'.tau = g.tau ∧ g'.nodes = g.nodes ∧ g'.edges ⊆ g.edges := by
  unfold excludeSpuriousParents at h
  dsimp only at h
  split at h
  · exact Except.noConfusion h
  · rename_i g2 pp2 hloop
    injection h with h
    subst h
    exact anchorLoop_ok _ _ _ hloop

/-- A graph with fewer edges has fewer predecessors at every node. -/
lemma predecessors_mono {g g' : Graph} (h : g'.edges ⊆ g.edges) (n : ℕ) :
    predecessors g' n ⊆ predecessors g n := by
  intro x hx
  simp only [predecessors, Finset.mem_image, Finset.mem_filter] at hx ⊢
  obtain ⟨e, ⟨he, hn⟩, hx⟩ := hx
  exact ⟨e, ⟨h he, hn⟩, hx⟩

/-- Folding `addEdge` preserves the graph attributes. -/
lemma foldl_addEdge_attrs (n : ℕ) (l : List ℕ) :
    ∀ g : Graph, (l.foldl (fun h pa => addEdge h pa n) g).ndim = g.ndim ∧
      (l.foldl (fun h pa => addEdge h pa n) g).tau = g.tau := by
  induction l with
  | nil => exact fun _ => ⟨rfl, rfl⟩
  | cons pa rest ih => exact fun g => ih (addEdge g pa n)

/-- Folding `addEdge` only grows the node set. -/
lemma foldl_addEdge_nodes_mono (n : ℕ) (l : List ℕ) :
    ∀ g : Graph, g.nodes ⊆ (l.foldl (fun h pa => addEdge h pa n) g).nodes := by
  induction l with
  | nil => exact fun _ => Finset.Subset.refl _
  | cons pa rest ih =>
    intro g
    refine Finset.Subset.trans ?_ (ih (addEdge g pa n))
    intro x hx
    simp only [addEdge, Finset.mem_insert]
    exact Or.inr (Or.inr hx)

/-- `addEdge` into a non-anchor target preserves the anchor invariant: the
lag-0 node ids stay exactly `{0, ..., ndim-1}` and every edge keeps a
non-anchor target. -/
lemma addEdge_inv {ndim : ℕ} {g : Graph} {pa n : ℕ} (hn : ndim ≤ n)
    (h1 : g.nodes.filter (fun x => x < ndim) = Finset.range ndim)
    (h2 : ∀ e ∈ g.edges, ndim ≤ e.2) :
    (addEdge g pa n).nodes.filter (fun x => x < ndim) = Finset.range ndim ∧
      ∀ e ∈ (addEdge g pa n).edges, ndim ≤ e.2 := by
  have hnn : ¬ n < ndim := Nat.not_lt.mpr hn
  constructor
  · simp only [addEdge]
    rw [Finset.filter_insert, Finset.filter_insert, if_neg hnn]
    by_cases hpa : pa < ndim
    · rw [if_pos hpa, h1, Finset.insert_eq_self.mpr (Finset.mem_range.mpr hpa)]
    · rw [if_neg hpa, h1]
  · intro e he
    simp only [addEdge, Finset.mem_insert] at he
    rcases he with rfl | he
    · exact hn
    · exact h2 e he

/-- Folding `addEdge` into a non-anchor target preserves the anchor
invariant. -/
lemma foldl_addEdge_inv {ndim n : ℕ} (hn : ndim ≤ n) (l : List ℕ) :
    ∀ g : Graph,
      g.nodes.filter (fun x => x < ndim) = Finset.range ndim →
      (∀ e ∈ g.edges, ndim ≤ e.2) →
      (l.foldl (fun h pa => addEdge h pa n) g).nodes.filter (fun x => x < ndim) =
          Finset.range ndim ∧
        ∀ e ∈ (l.foldl (fun h pa => addEdge h pa n) g).edges, ndim ≤ e.2 := by
  induction l with
  | nil => exact fun _ h1 h2 => ⟨h1, h2⟩
  | cons pa rest ih =>
    intro g h1 h2
    obtain ⟨h1a, h2a⟩ := addEdge_inv hn h1 h2
    exact ih (addEdge g pa n) h1a h2a

/-- Every expansion or pruning step preserves `ndim`. -/
lemma ExpandStep.ndim_eq {g g' : Graph} (h : ExpandStep g g') : g'.ndim = g.ndim := by
  cases h with
  | expandNode j => rfl
  | update paset j tau' ht =>
    simp only [updateGraphByParents]
    exact (foldl_addEdge_attrs _ _ g).1
  | setLag t => rfl
  | prune =>
    rename_i hx
    exact (excludeSpuriousParents_ok hx).1

/-- No expansion or pruning step ever removes a node. -/
lemma ExpandStep.nodes_mono {g g' : Graph} (h : ExpandStep g g') :
    g.nodes ⊆ g'.nodes := by
  cases h with
  | expandNode j => exact fun x hx => Finset.mem_insert_of_mem hx
  | update paset j tau' ht =>
    simp only [updateGraphByParents]
    exact foldl_addEdge_nodes_mono _ _ g
  | setLag t => exact Finset.Subset.refl _
  | prune =>
    rename_i hx
    rw [(excludeSpuriousParents_ok hx).2.2.1]

/-- The reachability invariant: a reachable graph keeps the constructed
`ndim`, its lag-0 node ids are exactly `{0, ..., ndim-1}`, and every edge
targets a non-anchor node. -/
lemma reachable_inv {ndim : ℕ} {g : Graph} (h : Reachable ndim g) :
    g.ndim = ndim ∧ g.nodes.filter (fun n => n < ndim) = Finset.range ndim ∧
      ∀ e ∈ g.edges, ndim ≤ e.2 := by
  induction h with
  | refl =>
    refine ⟨rfl, ?_, ?_⟩
    · exact Finset.filter_true_of_mem fun x hx => Finset.mem_range.mp hx
    · intro e he
      simp [initGraph] at he
  | tail hr hstep ih =>
    obtain ⟨ihnd, ihf, ihe⟩ := ih
    cases hstep with
    | expandNode j =>
      rename_i gg
      have hid : ¬ get_node_number (j, gg.tau + 1) gg.ndim < ndim := by
        rw [Nat.not_lt, get_node_number, ihnd]
        calc ndim ≤ (gg.tau + 1) * ndim := Nat.le_mul_of_pos_left ndim (Nat.succ_pos _)
          _ ≤ (gg.tau + 1) * ndim + j := Nat.le_add_right _ _
      refine ⟨ihnd, ?_, ihe⟩
      simp only [addNode]
      rw [Finset.filter_insert, if_neg hid, ihf]
    | update paset j tau' ht =>
      rename_i gg
      have hn : ndim ≤ get_node_number (j, tau') gg.ndim := by
        rw [get_node_number, ihnd]
        calc ndim ≤ tau' * ndim := Nat.le_mul_of_pos_left ndim ht
          _ ≤ tau' * ndim + j := Nat.le_add_right _ _
      obtain ⟨hf, he⟩ := foldl_addEdge_inv hn (sortedList paset) gg ihf ihe
      exact ⟨((foldl_addEdge_attrs _ _ gg).1).trans ihnd, hf, he⟩
    | setLag t => exact ⟨ihnd, ihf, ihe⟩
    | prune =>
      rename_i hx
      obtain ⟨hnde, _, hnodes, hedges⟩ := excludeSpuriousParents_ok hx
      refine ⟨hnde.trans ihnd, ?_, fun e he => ihe e (hedges he)⟩
      rw [hnodes]
      exact ihf

/-- A node is a successor exactly when the corresponding edge is present. -/
lemma mem_successors {g : Graph} {a b : ℕ} :
    b ∈ successors g a ↔ (a, b) ∈ g.edges := by
  simp only [successors, mem_sortedList, Finset.mem_image, Finset.mem_filter]
  constructor
  · rintro ⟨⟨x1, x2⟩, ⟨he, h1⟩, h2⟩
    simp only at h1 h2
    rw [h1, h2] at he
    exact he
  · exact fun h => ⟨(a, b), ⟨h, rfl⟩, rfl⟩

/-- Soundness of the depth-first path enumeration: every member of
`simplePathsFrom g t fuel cur visited` is a simple path from `cur` to `t`
avoiding `visited`. -/
lemma simplePathsFrom_sound (g : Graph) (t : ℕ) :
    ∀ (fuel cur : ℕ) (visited l : List ℕ), cur ∉ visited →
      l ∈ simplePathsFrom g t fuel cur visited →
      l.head? = some cur ∧ l.getLast? = some t ∧
        l.Chain' (fun a b => (a, b) ∈ g.edges) ∧ l.Nodup ∧ ∀ x ∈ l, x ∉ visited := by
  intro fuel
  induction fuel with
  | zero =>
    intro cur visited l _ h
    simp [simplePathsFrom] at h
  | succ fuel ih =>
    intro cur visited l hcv h
    rw [simplePathsFrom] at h
    by_cases hct : cur = t
    · rw [if_pos hct] at h
      simp only [List.mem_singleton] at h
      subst h
      refine ⟨rfl, by rw [hct]; rfl, List.chain'_singleton _, List.nodup_singleton _, ?_⟩
      intro x hx
      rw [List.mem_singleton] at hx
      rw [hx]
      exact hcv
    · rw [if_neg hct] at h
      simp only [List.mem_flatMap, List.mem_map, List.mem_filter,
        decide_eq_true_eq] at h
      obtain ⟨nxt, ⟨hsucc, hnv⟩, l', hl', rfl⟩ := h
      obtain ⟨ih1, ih2, ih3, ih4, ih5⟩ := ih nxt (cur :: visited) l' hnv hl'
      have hcur_notin : cur ∉ l' := fun hc =>
        (ih5 cur hc) (List.mem_cons_self cur visited)
      refine ⟨rfl, ?_, ?_, ?_, ?_⟩
      · cases l' with
        | nil => exact absurd ih1 (by simp)
        | cons x xs => rw [List.getLast?_cons_cons]; exact ih2
      · rw [List.chain'_cons']
        refine ⟨?_, ih3⟩
        intro y hy
        rw [ih1] at hy
        cases hy
        exact mem_successors.mp hsucc
      · exact List.nodup_cons.mpr ⟨hcur_notin, ih4⟩
      · intro x hx
        rcases List.mem_cons.mp hx with hx | hx
        · rw [hx]; exact hcv
        · exact fun hv => (ih5 x hx) (List.mem_cons_of_mem _ hv)

/-- If the graph has no directed simple path from `s` to `t`, the path query
of `get_causal_paths` returns the empty node list (given both endpoints are
present, as they always are for an anchor and a frontier target). -/
lemma get_causal_paths_nil {g : Graph} {s t : ℕ} (hs : s ∈ g.nodes)
    (ht : t ∈ g.nodes) (hno : ¬ HasSimplePath g s t) :
    get_causal_paths g s t = .ok [] := by
  unfold get_causal_paths
  rw [if_pos ⟨hs, ht⟩]
  have hnil : simplePathsFrom g t (g.nodes.card + 1) s [] = [] := by
    cases hp : simplePathsFrom g t (g.nodes.card + 1) s [] with
    | nil => rfl
    | cons l rest =>
      exfalso
      have hmem : l ∈ simplePathsFrom g t (g.nodes.card + 1) s [] := by
        rw [hp]; exact List.mem_cons_self _ _
      obtain ⟨h1, h2, h3, h4, _⟩ :=
        simplePathsFrom_sound g t _ s [] l (List.not_mem_nil s) hmem
      exact hno ⟨l, fun hl => by simp [hl] at h1, h1, h2, h3, h4⟩
  rw [hnil]
  rfl

/-- A node with no outgoing edges heads no simple path to another node. -/
lemma not_hasSimplePath_no_out {g : Graph} {s t : ℕ} (hst : s ≠ t)
    (h : ∀ b, (s, b) ∉ g.edges) : ¬ HasSimplePath g s t := by
  rintro ⟨l, hne, hh, hl, hc, -⟩
  cases l with
  | nil => exact hne rfl
  | cons a l2 =>
    simp only [List.head?_cons, Option.some.injEq] at hh
    subst hh
    cases l2 with
    | nil =>
      simp only [List.getLast?_singleton, Option.some.injEq] at hl
      exact hst hl
    | cons b l3 =>
      rw [List.chain'_cons] at hc
      exact h b hc.1

/-- C3: the claim states that `getPreliminaryParents` produces the previous
lag's parents shifted by one lag unioned with the `ndim` anchors.  As
executed, line 106 evaluates `ppaset | ppaset1` on two Python lists and the
function raises `TypeError` for every graph and variable (the code slip; the
repaired set-typed computation `getPreliminaryParentsFixed` below does yield
the claimed set). -/
theorem getPreliminaryParents_typeerror (g : Graph) (j : ℕ) :
    (getPreliminaryParents g j).2 = .error .typeError := rfl

/-- The set computed by the type-repaired `getPreliminaryParentsFixed` is
exactly the claimed one: the parents of `(j, tau)` each shifted forward one
lag (`+ ndim`) unioned with the anchor ids `{0, ..., ndim-1}`. -/
theorem getPreliminaryParentsFixed_eq (g : Graph) (j : ℕ) :
    (getPreliminaryParentsFixed g j).2 =
      (predecessors g (get_node_number (j, g.tau) g.ndim)).image (· + g.ndim) ∪
        Finset.range g.ndim := by
  ext n
  simp [getPreliminaryParentsFixed, temporallyMoveNodes, List.mem_map,
    mem_sortedList, Finset.mem_image]

/-- C1: the claim states that, for `taumin ≤ tau ≤ taumax` and `tau > dtau`,
`isConvergence` returns a boolean determined by parent-set comparisons over
the window `[tau-dtau, tau-1]`.  On the concrete graph with `ndim = 1`,
`tau = 3` and parameters `taumin = 0`, `taumax = 5`, `dtau = 2` (so
`taumin ≤ tau ≤ taumax` and `tau > dtau`), the code instead raises
`TypeError`: the comparison loop calls `g.predecessors(g, node_number_1)`
with a stray extra positional argument (and, independently of the raise, the
loop compares the single out-of-window lag pair `(tau-dtau-1, tau-dtau)`
`dtau-1` times rather than the window's consecutive pairs). -/
theorem isConvergence_stray_argument_typeerror :
    isConvergence (setTau (initGraph 1) 3) 0 5 2 = .error .typeError := rfl

/-- C5: the claim states the loop terminates and emits a CausalDict within
`taumax - taumin + 1` expansion iterations.  With `ndim = 1`, `dtau = 1`,
`taumax = 2`, `taumin = 1`, the first expansion iteration raises `TypeError`
inside `getPreliminaryParents` (line 106, `list | list`), so no CausalDict is
ever emitted, for every oracle (observation data) and `deep` flag. -/
theorem findCausalRelationships_first_expansion_typeerror (orc : Oracle) (deep : Bool) :
    findCausalRelationships orc 1 1 2 1 deep = .error .typeError := rfl

/-- C2: the claim states that after convergence the function returns the
dictionary keyed by each variable `j` with the decoded parents of
`(j, tau)`.  With `ndim = 1`, `taumin = 0`, `taumax = -1` the convergence
check succeeds immediately at `tau = 0` (hard cutoff), the assembly loop is
reached, and it raises `NameError` (`getParents` is undefined in the module
and the key expression uses the unbound name `i`), for every oracle and
`deep` flag. -/
theorem findCausalRelationships_assembly_nameerror (orc : Oracle) (deep : Bool) :
    findCausalRelationships orc 1 1 (-1) 0 deep = .error .nameError := rfl

/-- C4 counterexample: with `taumin = 10 > taumax = 3` (and `ndim = 1`,
`dtau = 1`), `findCausalRelationships` does not raise a configuration error
before graph construction: the anchor graph is constructed (third conjunct),
the expansion loop is entered on it (second conjunct), and the run fails
there with the `TypeError` of `getPreliminaryParents` (first conjunct). -/
theorem findCausalRelationships_no_config_check_cex :
    findCausalRelationships trivOracle 1 1 3 10 false = .error .typeError ∧
      expandLoop trivOracle false 10 3 1 16 (initGraph 1) = .error .typeError ∧
      (initGraph 1).nodes = {0} :=
  ⟨rfl, rfl, by decide⟩

/-- C4 amended: `findCausalRelationships` performs no `taumin`/`taumax`
validation; with `taumin = 10`, `taumax = 3` it constructs the lag-0 anchor
graph, enters the expansion loop, and fails inside the first expansion step
with a `TypeError` (from `getPreliminaryParents`), not a configuration
error — for every oracle and `deep` flag. -/
theorem findCausalRelationships_taumin_gt_taumax_typeerror (orc : Oracle) (deep : Bool) :
    findCausalRelationships orc 1 1 3 10 deep = .error .typeError := rfl

/-- C6: encode/decode round-trip.  For every graph with `ndim ≥ 1`, every
`variableIndex < ndim` and every `timeLag`, decoding (via `get_nodes_dict`,
i.e. `(id mod ndim, id div ndim)`) the encoded id
`timeLag * ndim + variableIndex` returns exactly the original pair. -/
theorem get_nodes_dict_roundtrip (g : Graph) (h1 : 1 ≤ g.ndim) (v lag : ℕ)
    (h2 : v < g.ndim) :
    get_nodes_dict g [get_node_number (v, lag) g.ndim] = [(v, lag)] := by
  have hm : (lag * g.ndim + v) % g.ndim = v := by
    rw [Nat.mul_comm, Nat.mul_add_mod, Nat.mod_eq_of_lt h2]
  have hd : (lag * g.ndim + v) / g.ndim = lag := by
    rw [Nat.mul_comm, Nat.mul_add_div h1, Nat.div_eq_of_lt h2, Nat.add_zero]
  simp only [get_nodes_dict, get_node_number, List.map_cons, List.map_nil]
  rw [hm, hd]

/-- Witness for C6 at `ndim = 3`, `variableIndex = 2`, `timeLag = 5`. -/
theorem get_nodes_dict_roundtrip_witness :
    get_nodes_dict (initGraph 3) [get_node_number (2, 5) (initGraph 3).ndim] = [(2, 5)] :=
  get_nodes_dict_roundtrip (initGraph 3) (by decide) 2 5 (by decide)

/-- C10: the `info` constructor's dimensionality check raises exactly when
the `pdfs` array has more than 3 or fewer than 1 dimensions, and for 1-, 2-
and 3-dimensional arrays it passes and records `self.ndim` as the array's
dimensionality. -/
theorem info_init_ndim_check (shape : List ℕ) :
    ((3 < shape.length ∨ shape.length < 1) ↔
      info_init_ndim shape =
        .error "The number of variables should be less than or equal to 3.") ∧
    (1 ≤ shape.length ∧ shape.length ≤ 3 → info_init_ndim shape = .ok shape.length) := by
  unfold info_init_ndim
  constructor
  · constructor
    · intro h
      simp only [if_pos h]
    · intro h
      by_contra hc
      rw [if_neg hc] at h
      exact Except.noConfusion h
  · intro h
    have hc : ¬(3 < shape.length ∨ shape.length < 1) := by omega
    rw [if_neg hc]

/-- Witness for C10 at a 2-dimensional shape. -/
theorem info_init_ndim_check_witness :
    info_init_ndim [4, 4] = .ok 2 :=
  (info_init_ndim_check [4, 4]).2 (by decide)

/-- C7: pruning is edge-monotone.  For every oracle (observation data), graph,
target node and `deep` flag, whenever `excludeSpuriousParents` returns a
graph, its edge set is a subset of the input's edge set; in particular the
post-pruning parent set of the target node is a subset of its pre-pruning
parent set. -/
theorem excludeSpuriousParents_edge_monotone (orc : Oracle) (g : Graph)
    (nodedict : NodeDict) (deep : Bool) (g' : Graph)
    (h : excludeSpuriousParents orc g nodedict deep = .ok g') :
    g'.edges ⊆ g.edges ∧
      predecessors g' (get_node_number nodedict g.ndim) ⊆
        predecessors g (get_node_number nodedict g.ndim) := by
  obtain ⟨_, _, _, he⟩ := excludeSpuriousParents_ok h
  exact ⟨he, predecessors_mono he _⟩

/-- Witness for C7: on `g7` with the all-dependent oracle the pruning pass
returns `g7` itself, and both subset conclusions hold. -/
theorem excludeSpuriousParents_edge_monotone_witness :
    g7.edges ⊆ g7.edges ∧
      predecessors g7 (get_node_number (0, 1) g7.ndim) ⊆
        predecessors g7 (get_node_number (0, 1) g7.ndim) :=
  excludeSpuriousParents_edge_monotone trivOracle g7 (0, 1) false g7 rfl

/-- C9: no-path no-op.  During the pruning pass for a target node, consider
an anchor `(i, 0)` and the state `st1` the unconditional step 1 leaves (it
may have removed the anchor's own edge).  If the current graph has no
directed simple path from the anchor to the target, then the path-node list
computed for that anchor is empty and the whole anchor iteration returns
`st1` unchanged and without error: steps 2-4 are skipped, a no-op beyond the
unconditional independence test. -/
theorem excludeAnchor_no_path_noop (orc : Oracle) (nodedict : NodeDict)
    (deep : Bool) (i : ℕ) (st st1 : Graph × Finset ℕ)
    (h1 : excludeStep1 orc nodedict i st = .ok st1)
    (hs : get_node_number (i, 0) st1.1.ndim ∈ st1.1.nodes)
    (ht : get_node_number nodedict st1.1.ndim ∈ st1.1.nodes)
    (hno : ¬ HasSimplePath st1.1 (get_node_number (i, 0) st1.1.ndim)
        (get_node_number nodedict st1.1.ndim)) :
    get_causal_paths st1.1 (get_node_number (i, 0) st1.1.ndim)
        (get_node_number nodedict st1.1.ndim) = .ok [] ∧
      excludeAnchorStep orc nodedict deep st i = .ok st1 := by
  have hpaths := get_causal_paths_nil hs ht hno
  refine ⟨hpaths, ?_⟩
  unfold excludeAnchorStep
  rw [h1]
  unfold excludeAnchorRest
  dsimp only
  rw [hpaths]
  simp only [intersect, List.filter_nil, List.toFinset_nil, Finset.not_mem_empty,
    false_and, if_false, Finset.erase_empty]
  split
  · simp [step4Loop, sortedList]
  · rfl

/-- Witness for C9 on `g9`: anchor `(0, 0)` (node `0`) has no outgoing edge,
hence no path to the target `(0, 1)` (node `2`, whose only parent is node
`1`); the anchor iteration is a no-op. -/
theorem excludeAnchor_no_path_noop_witness :
    get_causal_paths g9 (get_node_number (0, 0) g9.ndim)
        (get_node_number (0, 1) g9.ndim) = .ok [] ∧
      excludeAnchorStep trivOracle (0, 1) false (g9, {1}) 0 = .ok (g9, {1}) :=
  excludeAnchor_no_path_noop trivOracle (0, 1) false 0 (g9, {1}) (g9, {1}) rfl
    (by decide) (by decide)
    (not_hasSimplePath_no_out (by decide)
      (fun b => by simp [g9, get_node_number, Prod.ext_iff]))

/-- C8: anchor invariance.  A node id decodes to lag 0 exactly when it is
below `ndim` (for `ndim ≥ 1`), so the first conjunct says the lag-0 nodes of
any graph reachable by expansion and pruning steps are exactly the `ndim`
anchors `{0, ..., ndim-1}` (second conjunct: exactly `ndim` of them), the
third says no edge ever targets an anchor (anchors never acquire parents),
and the final conjunct says no step ever removes a node. -/
theorem anchor_invariance (ndim : ℕ) (g g' : Graph) :
    (Reachable ndim g →
      g.nodes.filter (fun n => n < ndim) = Finset.range ndim ∧
        (g.nodes.filter (fun n => n < ndim)).card = ndim ∧
        ∀ e ∈ g.edges, ¬ e.2 < ndim) ∧
    (ExpandStep g g' → g.nodes ⊆ g'.nodes) := by
  constructor
  · intro h
    obtain ⟨-, hf, he⟩ := reachable_inv h
    refine ⟨hf, ?_, fun e hee => Nat.not_lt.mpr (he e hee)⟩
    rw [hf]
    exact Finset.card_range ndim
  · exact ExpandStep.nodes_mono

/-- Witness for C8 at `ndim = 1`: the freshly initialised anchor graph is
reachable and satisfies the invariant, and the expansion step adding the
lag-1 node for variable `0` only grows the node set. -/
theorem anchor_invariance_witness :
    ((initGraph 1).nodes.filter (fun n => n < 1) = Finset.range 1 ∧
      ((initGraph 1).nodes.filter (fun n => n < 1)).card = 1 ∧
      ∀ e ∈ (initGraph 1).edges, ¬ e.2 < 1) ∧
    (initGraph 1).nodes ⊆
      (addNode (initGraph 1)
        (get_node_number (0, (initGraph 1).tau + 1) (initGraph 1).ndim)).nodes := by
  constructor
  · exact (anchor_invariance 1 (initGraph 1) (initGraph 1)).1 Relation.ReflTransGen.refl
  · exact (anchor_invariance 1 (initGraph 1) _).2 (ExpandStep.expandNode (initGraph 1) 0)

end CausalHistory
